import Mathlib

/-!
Verification of the dspy-go core: type introspection (`typed_signature.go`),
runtime validation (`validateStruct`), schema synthesis (`part_000`,
`buildSchemaFromType` / `BuildSchemaFromJson`), the shorthand signature parser
(`signature.go`), and the cached signature registry
(`NewTypedSignatureCached`).

Go's reflection layer is embedded shallowly: `GoType` models `reflect.Type`
(the kinds the repository inspects), `GoField` models `reflect.StructField`
with its struct tags, and `GoValue` models runtime values as seen through
`reflect.Value`.  Machine strings are Lean `String`s; struct-tag access
`Tag.Get(k)` is modelled by one field per tag key consulted by the code
(`dspy`, `description`, `prefix`, `json`), holding `""` when the tag is
absent, exactly as `Tag.Get` returns.
-/

namespace DspyGo

/-- `FieldType` is a Go string type (`type FieldType string`); its zero value
is the empty string, which is distinct from every named constant below. -/
abbrev FieldType := String

def fieldTypeText : FieldType := "text"
def fieldTypeImage : FieldType := "image"
def fieldTypeAudio : FieldType := "audio"
def fieldTypeInt : FieldType := "int"
def fieldTypeBool : FieldType := "bool"
def fieldTypeString : FieldType := "string"
def fieldTypeArray : FieldType := "array"
def fieldTypeObject : FieldType := "object"

mutual

/-- Model of `reflect.Type` restricted to the kinds the repository inspects.
`goMap` keeps only the value type (`reflect.Type.Elem`); the key type is never
consulted by the code under verification.  `goOther` stands for every
remaining kind (unsigned ints other than uint8, chan, func, interface, complex, ...):
all of them hit the `default` branch of both kind switches. -/
inductive GoType where
  | goString : GoType
  | goBool : GoType
  | goInt : GoType
  | goInt8 : GoType
  | goInt16 : GoType
  | goInt32 : GoType
  | goInt64 : GoType
  | goUint8 : GoType
  | goFloat32 : GoType
  | goFloat64 : GoType
  | goPtr (elem : GoType) : GoType
  | goSlice (elem : GoType) : GoType
  | goFixedArray (elem : GoType) : GoType
  | goMap (valTy : GoType) : GoType
  | goStruct (nm : String) (fields : List GoField) : GoType
  | goOther : GoType

/-- Model of `reflect.StructField`: identifier, exportedness
(`IsExported` / `PkgPath == ""`), the four struct-tag keys the code reads, and
the field's type. -/
inductive GoField where
  | mk (name : String) (exported : Bool)
       (tagDspy tagDesc tagPfx tagJson : String) (ty : GoType) : GoField

end

namespace GoField

def name : GoField → String
  | .mk n _ _ _ _ _ _ => n

def exported : GoField → Bool
  | .mk _ e _ _ _ _ _ => e

def tagDspy : GoField → String
  | .mk _ _ d _ _ _ _ => d

def tagDesc : GoField → String
  | .mk _ _ _ d _ _ _ => d

def tagPfx : GoField → String
  | .mk _ _ _ _ p _ _ => p

def tagJson : GoField → String
  | .mk _ _ _ _ _ j _ => j

def ty : GoField → GoType
  | .mk _ _ _ _ _ _ t => t

end GoField

namespace GoType

/-- One level of pointer unwrapping: `if t.Kind() == reflect.Ptr { t = t.Elem() }`. -/
def ptrDeref : GoType → GoType
  | .goPtr e => e
  | t => t

/-- `reflect.Type.Elem()` for the container kinds that have an element type.
On kinds without an element Go would panic; the code only calls `Elem` on
pointers, slices, fixed arrays and maps, so the catch-all is never reached on
the paths under verification. -/
def elemType : GoType → GoType
  | .goPtr e => e
  | .goSlice e => e
  | .goFixedArray e => e
  | .goMap v => v
  | _ => .goOther

/-- Fields of a struct kind, `[]` for every other kind. -/
def structFields : GoType → List GoField
  | .goStruct _ fs => fs
  | _ => []

/-- Kind test `t.Elem().Kind() == reflect.Uint8` used by the byte-slice
heuristic of `inferFieldType`. -/
def isUint8 : GoType → Bool
  | .goUint8 => true
  | _ => false

/-- `reflect.Type.Name()`: the declared name for named types.  Predeclared
kinds carry their spelling, composite unnamed kinds (pointer, slice, array,
map) have the empty name. -/
def typeName : GoType → String
  | .goString => "string"
  | .goBool => "bool"
  | .goInt => "int"
  | .goInt8 => "int8"
  | .goInt16 => "int16"
  | .goInt32 => "int32"
  | .goInt64 => "int64"
  | .goUint8 => "uint8"
  | .goFloat32 => "float32"
  | .goFloat64 => "float64"
  | .goPtr _ => ""
  | .goSlice _ => ""
  | .goFixedArray _ => ""
  | .goMap _ => ""
  | .goStruct nm _ => nm
  | .goOther => ""

end GoType

open GoType

/-- `inferFieldType` (typed_signature.go:155-183): unwrap exactly one pointer
level, then classify the kind.  A byte slice is the binary/Image heuristic;
`reflect.Array` (fixed arrays), floats, unsigned ints and everything else fall
through to the `Text` default. -/
def inferFieldType (t0 : GoType) : FieldType :=
  let t := t0.ptrDeref
  match t with
  | .goString => fieldTypeString
  | .goBool => fieldTypeBool
  | .goInt => fieldTypeInt
  | .goInt8 => fieldTypeInt
  | .goInt16 => fieldTypeInt
  | .goInt32 => fieldTypeInt
  | .goInt64 => fieldTypeInt
  | .goSlice e => if e.isUint8 then fieldTypeImage else fieldTypeArray
  | .goMap _ => fieldTypeObject
  | .goStruct _ _ => fieldTypeObject
  | _ => fieldTypeText

/-- `FieldMetadata` (typed_signature.go:16-28).  Go's `Prefix` field is named
`pfx` here; `Item` is the nested array-element descriptor, `Properties` the
object property map, modelled as an association list in insertion order
(`map[string]*FieldMetadata` in Go). -/
inductive FieldMetadata where
  | mk (name goFieldName : String) (required : Bool)
       (description pfx : String) (ftype : FieldType) (goType : GoType)
       (item : Option FieldMetadata)
       (properties : List (String × FieldMetadata)) : FieldMetadata

namespace FieldMetadata

def name : FieldMetadata → String
  | .mk n _ _ _ _ _ _ _ _ => n

def goFieldName : FieldMetadata → String
  | .mk _ g _ _ _ _ _ _ _ => g

def required : FieldMetadata → Bool
  | .mk _ _ r _ _ _ _ _ _ => r

def description : FieldMetadata → String
  | .mk _ _ _ d _ _ _ _ _ => d

def pfx : FieldMetadata → String
  | .mk _ _ _ _ p _ _ _ _ => p

def ftype : FieldMetadata → FieldType
  | .mk _ _ _ _ _ t _ _ _ => t

def goType : FieldMetadata → GoType
  | .mk _ _ _ _ _ _ g _ _ => g

def item : FieldMetadata → Option FieldMetadata
  | .mk _ _ _ _ _ _ _ i _ => i

def properties : FieldMetadata → List (String × FieldMetadata)
  | .mk _ _ _ _ _ _ _ _ ps => ps

end FieldMetadata

/-- Whitespace as trimmed by `strings.TrimSpace` (the ASCII subset that can
occur in struct tags and shorthand signatures). -/
def goIsSpace (c : Char) : Bool :=
  c = ' ' || c = '\t' || c = '\n' || c = '\r'

def goTrimList (l : List Char) : List Char :=
  ((l.dropWhile goIsSpace).reverse.dropWhile goIsSpace).reverse

/-- `strings.TrimSpace`. -/
def goTrim (s : String) : String :=
  String.mk (goTrimList s.data)

/-- `strings.ToLower` on the ASCII identifiers Go field names consist of. -/
def goLowerChar (c : Char) : Char :=
  if 'A' ≤ c && c ≤ 'Z' then Char.ofNat (c.toNat + 32) else c

def goToLower (s : String) : String :=
  String.mk (s.data.map goLowerChar)

/-- `strings.Split(s, ",")` at the character-list level: split around every
comma, leftmost first, never dropping empty parts. -/
def splitCommaList : List Char → List (List Char)
  | [] => [[]]
  | c :: rest =>
    if c = ',' then [] :: splitCommaList rest
    else match splitCommaList rest with
      | [] => [[c]]
      | p :: ps => (c :: p) :: ps

/-- `strings.Split(s, ",")`. -/
def goSplitComma (s : String) : List String :=
  (splitCommaList s.data).map (fun l => String.mk l)

/-- The `required` scan over `parts[1:]` of the `dspy` tag:
`strings.TrimSpace(p) == "required"` for some later part. -/
def dspyRequired (parts : List String) : Bool :=
  parts.any (fun p => goTrim p == "required")

/-- Go map assignment `props[child.Name] = &child`: replace the value when
the key is already present, append otherwise. -/
def insertProp (props : List (String × FieldMetadata)) (child : FieldMetadata) :
    List (String × FieldMetadata) :=
  if props.any (fun p => p.1 == child.name) then
    props.map (fun p => if p.1 == child.name then (p.1, child) else p)
  else
    props ++ [(child.name, child)]

/-- Assemble the property map from the per-field results of the loop in
`parseObjectProperties` (`none` marks a skipped unexported field). -/
def buildProps (children : List (Option FieldMetadata)) :
    List (String × FieldMetadata) :=
  children.foldl (fun acc c => match c with
    | none => acc
    | some child => insertProp acc child) []

lemma sizeOf_ty_lt_of_mem_structFields {f : GoField} {t : GoType}
    (hf : f ∈ t.structFields) : sizeOf f.ty < sizeOf t := by
  cases t <;> simp [GoType.structFields] at hf
  case goStruct nm fs =>
    have h1 := List.sizeOf_lt_of_mem hf
    cases f with
    | mk n e a b c d ty' => simp [GoField.ty] at *; omega

lemma sizeOf_structFields_le (t : GoType) : sizeOf t.structFields ≤ sizeOf t := by
  cases t <;> simp [GoType.structFields]

lemma sizeOf_elemType_lt_of_array {t : GoType}
    (h : inferFieldType t = fieldTypeArray) : sizeOf t.elemType < sizeOf t := by
  cases t <;>
    simp_all [inferFieldType, GoType.elemType, GoType.ptrDeref, fieldTypeArray,
      fieldTypeText, fieldTypeString, fieldTypeBool, fieldTypeInt,
      fieldTypeImage, fieldTypeObject]

attribute [simp] GoField.name GoField.exported GoField.tagDspy GoField.tagDesc
  GoField.tagPfx GoField.tagJson GoField.ty
  FieldMetadata.name FieldMetadata.goFieldName FieldMetadata.required
  FieldMetadata.description FieldMetadata.pfx FieldMetadata.ftype
  FieldMetadata.goType FieldMetadata.item FieldMetadata.properties
  GoType.ptrDeref GoType.elemType GoType.structFields GoType.isUint8
  GoType.typeName
  goIsSpace goTrimList goTrim goLowerChar goToLower splitCommaList goSplitComma
  dspyRequired insertProp buildProps

mutual

/-- `parseFieldMetadataRecursive` (typed_signature.go:97-147): defaults from
the identifier, `dspy` / `description` / `prefix` tag overrides, kind
classification via `inferFieldType`, and recursion into object properties or
the array element.  The proof argument of `parseArrayElement` records that
the branch is only taken for Array-classified fields. -/
def parseFieldMetadataRecursive (field : GoField) (isInput : Bool) : FieldMetadata :=
  let dspy := field.tagDspy
  let parts := goSplitComma dspy
  let nm := if dspy ≠ "" ∧ parts.headD "" ≠ "" then parts.headD "" else goToLower field.name
  let req := if dspy ≠ "" then dspyRequired parts.tail else false
  let desc := if field.tagDesc ≠ "" then field.tagDesc else field.name
  let pfx0 := if isInput then "" else nm ++ ":"
  let pfx1 := if field.tagPfx ≠ "" then field.tagPfx else pfx0
  let ft := inferFieldType field.ty
  .mk nm field.name req desc pfx1 ft field.ty
    (if h : ft = fieldTypeArray then some (parseArrayElement field.ty h) else none)
    (if ft = fieldTypeObject then parseObjectProperties field.ty else [])
termination_by 3 * sizeOf field.ty + 2
decreasing_by
  · omega
  · omega

/-- `parseObjectProperties` (typed_signature.go:191-212): one pointer
dereference, empty map unless a struct, then each exported field parsed as an
input (`isInput = true`) and inserted under its resolved name. -/
def parseObjectProperties (t : GoType) : List (String × FieldMetadata) :=
  buildProps (parseObjectPropertiesLoop t.ptrDeref.structFields)
termination_by 3 * sizeOf t + 1
decreasing_by
  · have h1 := sizeOf_structFields_le (GoType.ptrDeref t)
    have h2 : sizeOf (GoType.ptrDeref t) ≤ sizeOf t := by
      cases t <;> simp [GoType.ptrDeref]
    omega

def parseObjectPropertiesLoop (fs : List GoField) : List (Option FieldMetadata) :=
  match fs with
  | [] => []
  | f :: rest =>
    (if f.exported then some (parseFieldMetadataRecursive f true) else none)
      :: parseObjectPropertiesLoop rest
termination_by 3 * sizeOf fs
decreasing_by
  · have h1 : f ∈ (f :: rest) := List.mem_cons_self f rest
    have h2 := List.sizeOf_lt_of_mem h1
    have h3 : sizeOf (GoField.ty f) < sizeOf f := by
      cases f with | mk n e a b c d ty' =>
        simp only [GoField.ty, GoField.mk.sizeOf_spec]; omega
    omega
  · simp only [List.cons.sizeOf_spec]; omega

/-- `parseArrayElement` (typed_signature.go:220-231): a synthetic field named
after the element type with an empty tag, parsed as an input. -/
def parseArrayElement (t : GoType) (_h : inferFieldType t = fieldTypeArray) :
    FieldMetadata :=
  let elem := t.elemType
  parseFieldMetadataRecursive (GoField.mk elem.typeName true "" "" "" "" elem) true
termination_by 3 * sizeOf t + 1
decreasing_by
  · have h1 := sizeOf_elemType_lt_of_array _h
    simp only [GoField.ty]
    omega

end

/-- `parseStructFields` (typed_signature.go:72-89): no pointer dereference
here (`getReflectTypes` already unwrapped one level); non-struct kinds yield
the empty list, exported fields are parsed in declaration order. -/
def parseStructFields (t : GoType) (isInput : Bool) : List FieldMetadata :=
  (t.structFields.filter (fun f => f.exported)).map
    (fun f => parseFieldMetadataRecursive f isInput)

/-- `SignatureMetadata` (typed_signature.go:29-33). -/
structure SignatureMetadata where
  Inputs : List FieldMetadata
  Outputs : List FieldMetadata
  Instruction : String := ""

/-- The metadata built by `createTypedSignatureImpl` (typed_signature.go:53-64)
for an input/output type pair — the content of every cached signature. -/
def createTypedSignatureMetadata (inputType outputType : GoType) : SignatureMetadata :=
  { Inputs := parseStructFields inputType true
    Outputs := parseStructFields outputType false }

/-!  Runtime values (`reflect.Value`) and the validator. -/

/-- Model of a Go runtime value as inspected by `validateStruct`.  Slices and
maps carry their nil-ness separately from their contents because
`reflect.Value.IsZero` tests `IsNil`, not emptiness.  A nil pointer is
`vPtr none`.  Float values never occur in the verified claims and are
omitted. -/
inductive GoValue where
  | vString (s : String) : GoValue
  | vBool (b : Bool) : GoValue
  | vInt (n : Int) : GoValue
  | vPtr (pointee : Option GoValue) : GoValue
  | vSlice (isNil : Bool) (elems : List GoValue) : GoValue
  | vMap (isNil : Bool) (entries : List (String × GoValue)) : GoValue
  | vStruct (fields : List (String × GoValue)) : GoValue

mutual

/-- `reflect.Value.IsZero`: empty string, `false`, numeric zero, nil pointer,
nil slice/map (an empty but non-nil collection is NOT zero), and for a struct
the conjunction over its fields. -/
def goIsZero : GoValue → Bool
  | .vString s => s == ""
  | .vBool b => !b
  | .vInt n => n == 0
  | .vPtr p => p.isNone
  | .vSlice isNil _ => isNil
  | .vMap isNil _ => isNil
  | .vStruct fields => goIsZeroFields fields

def goIsZeroFields : List (String × GoValue) → Bool
  | [] => true
  | (_, v) :: rest => goIsZero v && goIsZeroFields rest

end

/-- `v := reflect.ValueOf(value); if v.Kind() == reflect.Ptr { v = v.Elem() }`:
dereferencing a nil pointer yields the invalid `reflect.Value` (`none` here),
whose kind is not `Struct`. -/
def derefValue : GoValue → Option GoValue
  | .vPtr none => none
  | .vPtr (some x) => some x
  | v => some v

/-- `v.FieldByName(name)`: `none` models the invalid `reflect.Value` returned
when no field has that name. -/
def lookupGoField (fields : List (String × GoValue)) (nm : String) : Option GoValue :=
  (fields.find? (fun p => p.1 == nm)).map (·.2)

/-- The three error values `validateStruct` can produce
(typed_signature.go:241, 250, 261), with the `fieldType` path argument they
embed in their message. -/
inductive ValidationError where
  | emptyValue (path : String) : ValidationError
  | notAStruct (path : String) : ValidationError
  | requiredFieldMissing (path fieldName : String) : ValidationError
  deriving DecidableEq

/-- `flatten` (typed_signature.go:276-282): the property map's values. -/
def flatten (m : List (String × FieldMetadata)) : List FieldMetadata :=
  m.map (·.2)

lemma sizeOf_lt_of_derefValue_struct {v0 : GoValue} {fields : List (String × GoValue)}
    (h : derefValue v0 = some (.vStruct fields)) : sizeOf fields < sizeOf v0 := by
  cases v0 with
  | vPtr p =>
    cases p with
    | none => simp [derefValue] at h
    | some x =>
      simp only [derefValue, Option.some.injEq] at h
      subst h
      simp only [GoValue.vPtr.sizeOf_spec, GoValue.vStruct.sizeOf_spec,
        Option.some.sizeOf_spec]
      omega
  | vStruct fs =>
    simp only [derefValue, Option.some.injEq, GoValue.vStruct.injEq] at h
    subst h
    simp only [GoValue.vStruct.sizeOf_spec]
    omega
  | vString s => simp [derefValue] at h
  | vBool b => simp [derefValue] at h
  | vInt n => simp [derefValue] at h
  | vSlice b l => simp [derefValue] at h
  | vMap b l => simp [derefValue] at h

lemma sizeOf_lt_of_lookupGoField {fields : List (String × GoValue)} {nm : String}
    {fv : GoValue} (h : lookupGoField fields nm = some fv) :
    1 + sizeOf fv < sizeOf fields := by
  simp only [lookupGoField, Option.map_eq_some'] at h
  obtain ⟨pr, hfind, hsnd⟩ := h
  have hmem : pr ∈ fields := List.mem_of_find?_eq_some hfind
  have hlt := List.sizeOf_lt_of_mem hmem
  cases pr with
  | mk k v => simp_all; omega

mutual

/-- `validateStruct` (typed_signature.go:239-274).  The first argument models
the `any` parameter: `none` is the nil interface.  Field iteration is
delegated to `validateFieldsLoop`. -/
def validateStruct (value : Option GoValue) (expected : List FieldMetadata)
    (fieldType : String) : Option ValidationError :=
  match value with
  | none => some (.emptyValue fieldType)
  | some v0 =>
    match h1 : derefValue v0 with
    | none => some (.notAStruct fieldType)
    | some (.vStruct fields) => validateFieldsLoop fields expected fieldType
    | some _ => some (.notAStruct fieldType)
termination_by (sizeOf value, 0)
decreasing_by
  · have hlt := sizeOf_lt_of_derefValue_struct h1
    simp only [Option.some.sizeOf_spec]
    omega

/-- The `for _, expectedField := range expected` loop of `validateStruct`:
skip non-required fields, fail on an absent or `IsZero` required field,
recurse into flattened properties for an Object-typed required field. -/
def validateFieldsLoop (fields : List (String × GoValue))
    (expected : List FieldMetadata) (fieldType : String) : Option ValidationError :=
  match expected with
  | [] => none
  | ef :: rest =>
    if !ef.required then validateFieldsLoop fields rest fieldType
    else
      match h2 : lookupGoField fields ef.goFieldName with
      | none => some (.requiredFieldMissing fieldType ef.name)
      | some fv =>
        if goIsZero fv then some (.requiredFieldMissing fieldType ef.name)
        else if ef.ftype = fieldTypeObject then
          match validateStruct (some fv) (flatten ef.properties)
              (fieldType ++ "." ++ ef.name) with
          | some e => some e
          | none => validateFieldsLoop fields rest fieldType
        else validateFieldsLoop fields rest fieldType
termination_by (sizeOf fields, expected.length)
decreasing_by
  all_goals try decreasing_tactic
  all_goals
    have hlk := sizeOf_lt_of_lookupGoField h2
    simp_wf
    apply Prod.Lex.left
    omega

end

/-!  The specification's reading of the validator, §4.2 / §8 of the spec.
`specValidate` follows the spec sentence for sentence, but is parameterized
by the zero-equivalence predicate, which is the part of the sentence under
test: instantiating it with `claimZeroEquivalent` gives the claim exactly as
stated ("empty string, zero number, false, empty collection, null
reference"), instantiating it with Go's actual zero-value predicate gives
the amended claim. -/

/-- Zero-equivalence as claim C1 literally enumerates it: empty string, zero
number, false, empty collection, null reference.  (A record value is none of
these.) -/
def claimZeroEquivalent : GoValue → Bool
  | .vString s => s == ""
  | .vInt n => n == 0
  | .vBool b => !b
  | .vSlice _ elems => elems.isEmpty
  | .vMap _ entries => entries.isEmpty
  | .vPtr p => p.isNone
  | .vStruct _ => false

mutual

/-- The validator as the spec describes it: reject a nil value
(`EmptyValue`) or a non-record (`NotAStruct`), then scan the expected fields
in order, failing fast on the first required field that is absent or
`zero`-equivalent, recursing one level (with an extended path) into a
required Object-typed field's flattened Properties, and never recursing into
Array-typed fields. -/
def specValidate (zero : GoValue → Bool) (value : Option GoValue)
    (expected : List FieldMetadata) (path : String) : Option ValidationError :=
  match value with
  | none => some (.emptyValue path)
  | some v0 =>
    match h1 : derefValue v0 with
    | none => some (.notAStruct path)
    | some (.vStruct fields) => specCheckFields zero fields expected path
    | some _ => some (.notAStruct path)
termination_by (sizeOf value, 0)
decreasing_by
  · have hlt := sizeOf_lt_of_derefValue_struct h1
    simp only [Option.some.sizeOf_spec]
    omega

/-- First violation among the required fields, in declaration order;
non-required fields are never checked. -/
def specCheckFields (zero : GoValue → Bool) (fields : List (String × GoValue))
    (expected : List FieldMetadata) (path : String) : Option ValidationError :=
  match expected with
  | [] => none
  | ef :: rest =>
    if ef.required then
      match h2 : lookupGoField fields ef.goFieldName with
      | none => some (.requiredFieldMissing path ef.name)
      | some fv =>
        if zero fv then some (.requiredFieldMissing path ef.name)
        else if ef.ftype = fieldTypeObject then
          match specValidate zero (some fv) (flatten ef.properties)
              (path ++ "." ++ ef.name) with
          | some e => some e
          | none => specCheckFields zero fields rest path
        else specCheckFields zero fields rest path
    else specCheckFields zero fields rest path
termination_by (sizeOf fields, expected.length)
decreasing_by
  all_goals try decreasing_tactic
  all_goals
    have hlk := sizeOf_lt_of_lookupGoField h2
    simp_wf
    apply Prod.Lex.left
    omega

end

/-!  Schema synthesizer (`src/unnamed/part_000`). -/

/-- `TypeSchema` (part_000:21-44) restricted to the fields the verified
claims consult: `Type`, `Properties`, `Items`, `Required`, `Description`.
The remaining optional constraint fields (enum, format, bounds, nullable,
pattern, title, anyOf, propertyOrdering, default, example) are never written
by `buildSchemaFromType` and never read by any claim, and are omitted.
`Properties` is an association list in insertion order modelling the Go
map. -/
inductive TypeSchema where
  | mk (ttype : String) (properties : List (String × TypeSchema))
       (items : Option TypeSchema) (required : List String)
       (description : String) : TypeSchema

namespace TypeSchema

def ttype : TypeSchema → String
  | .mk t _ _ _ _ => t

def properties : TypeSchema → List (String × TypeSchema)
  | .mk _ ps _ _ _ => ps

def items : TypeSchema → Option TypeSchema
  | .mk _ _ i _ _ => i

def required : TypeSchema → List String
  | .mk _ _ _ r _ => r

def description : TypeSchema → String
  | .mk _ _ _ _ d => d

end TypeSchema

/-- The zero `TypeSchema` value. -/
def zeroSchema : TypeSchema := .mk "" [] none [] ""

/-- The schema `type` tags (part_000:12-19). -/
def typeSTRING : String := "STRING"
def typeINTEGER : String := "INTEGER"
def typeNUMBER : String := "NUMBER"
def typeBOOLEAN : String := "BOOLEAN"
def typeOBJECT : String := "OBJECT"
def typeARRAY : String := "ARRAY"

/-- `baseType` (part_000:118-123): strip every pointer level. -/
def baseType : GoType → GoType
  | .goPtr e => baseType e
  | t => t

/-- The resolved schema property name (part_000:73-78): head of the `json`
tag, falling back to the field identifier when empty. -/
def jsonFieldName (f : GoField) : String :=
  let parts := goSplitComma f.tagJson
  if parts.headD "" = "" then f.name else parts.headD ""

/-- Whether `omitempty` occurs among the `json` tag options
(part_000:82-88). -/
def jsonOmitempty (f : GoField) : Bool :=
  (goSplitComma f.tagJson).tail.any (fun o => o == "omitempty")

/-- Go map assignment `s.Properties[fieldName] = fieldSchema`. -/
def insertSchemaProp (props : List (String × TypeSchema)) (nm : String)
    (s : TypeSchema) : List (String × TypeSchema) :=
  if props.any (fun p => p.1 == nm) then
    props.map (fun p => if p.1 == nm then (p.1, s) else p)
  else
    props ++ [(nm, s)]

lemma sizeOf_baseType_le : ∀ (t : GoType), sizeOf (baseType t) ≤ sizeOf t
  | .goPtr e => by
    have ih := sizeOf_baseType_le e
    simp only [baseType, GoType.goPtr.sizeOf_spec]
    omega
  | .goString => by simp [baseType]
  | .goBool => by simp [baseType]
  | .goInt => by simp [baseType]
  | .goInt8 => by simp [baseType]
  | .goInt16 => by simp [baseType]
  | .goInt32 => by simp [baseType]
  | .goInt64 => by simp [baseType]
  | .goUint8 => by simp [baseType]
  | .goFloat32 => by simp [baseType]
  | .goFloat64 => by simp [baseType]
  | .goSlice e => by simp [baseType]
  | .goFixedArray e => by simp [baseType]
  | .goMap v => by simp [baseType]
  | .goStruct nm fs => by simp [baseType]
  | .goOther => by simp [baseType]

mutual

/-- `buildSchemaFromType` (part_000:59-117): kind switch with no pointer
case of its own (`baseType` is applied when recursing into struct fields and
array elements, not at the top), no byte-slice special case, floats mapped to
NUMBER, and maps falling through to the STRING default. -/
def buildSchemaFromType (t : GoType) : TypeSchema :=
  match t with
  | .goStruct _ fs =>
    let pr := buildSchemaFields fs [] []
    .mk typeOBJECT pr.1 none pr.2 ""
  | .goSlice e => .mk typeARRAY [] (some (buildSchemaFromType (baseType e))) [] ""
  | .goFixedArray e => .mk typeARRAY [] (some (buildSchemaFromType (baseType e))) [] ""
  | .goString => .mk typeSTRING [] none [] ""
  | .goBool => .mk typeBOOLEAN [] none [] ""
  | .goInt => .mk typeINTEGER [] none [] ""
  | .goInt8 => .mk typeINTEGER [] none [] ""
  | .goInt16 => .mk typeINTEGER [] none [] ""
  | .goInt32 => .mk typeINTEGER [] none [] ""
  | .goInt64 => .mk typeINTEGER [] none [] ""
  | .goFloat32 => .mk typeNUMBER [] none [] ""
  | .goFloat64 => .mk typeNUMBER [] none [] ""
  | _ => .mk typeSTRING [] none [] ""
termination_by sizeOf t
decreasing_by
  all_goals simp only [GoType.goStruct.sizeOf_spec, GoType.goSlice.sizeOf_spec,
    GoType.goFixedArray.sizeOf_spec]
  all_goals try (have hb := sizeOf_baseType_le e; omega)
  omega

/-- The struct-field loop of `buildSchemaFromType` (part_000:67-94):
skip unexported fields, resolve the name from the `json` tag (falling back
to the identifier), insert the recursively built schema, and append the name
to Required unless `omitempty` is among the tag options. -/
def buildSchemaFields (fs : List GoField)
    (props : List (String × TypeSchema)) (req : List String) :
    List (String × TypeSchema) × List String :=
  match fs with
  | [] => (props, req)
  | f :: rest =>
    if f.exported then
      let fieldName := jsonFieldName f
      let fieldSchema := buildSchemaFromType (baseType f.ty)
      let props1 := insertSchemaProp props fieldName fieldSchema
      let req1 := if jsonOmitempty f then req else req ++ [fieldName]
      buildSchemaFields rest props1 req1
    else buildSchemaFields rest props req
termination_by sizeOf fs
decreasing_by
  all_goals simp only [List.cons.sizeOf_spec]
  · have h1 : sizeOf (baseType f.ty) ≤ sizeOf f.ty := sizeOf_baseType_le f.ty
    have h2 : sizeOf (GoField.ty f) < sizeOf f := by
      cases f with | mk n e a b c d ty' =>
        simp only [GoField.ty, GoField.mk.sizeOf_spec]; omega
    omega
  · omega
  · omega

end

/-!  Pre-authored schema documents (`BuildSchemaFromJson`, part_000:46-53).
The function runs `json.Unmarshal` on a byte slice; the model starts from
the parsed JSON document (`Jsonish`), i.e. after lexing, and mirrors
`encoding/json`'s behaviour for the modelled `TypeSchema` fields: unknown
keys are ignored, a `null` value leaves the target unchanged (and sets a
pointer target to nil), a kind mismatch is an error, and a top-level value
that is neither an object nor `null` is an error. -/
inductive Jsonish where
  | jnull : Jsonish
  | jbool (b : Bool) : Jsonish
  | jnum (n : Int) : Jsonish
  | jstr (s : String) : Jsonish
  | jarr (elems : List Jsonish) : Jsonish
  | jobj (entries : List (String × Jsonish)) : Jsonish

/-- Decode a JSON array of strings (`required`). -/
def decodeStringList : List Jsonish → Option (List String)
  | [] => some []
  | .jstr s :: rest => (decodeStringList rest).map (fun l => s :: l)
  | _ :: _ => none

mutual

/-- Decode one JSON value into a `*TypeSchema` target: an object is decoded
key by key, anything else is a kind mismatch (`null` is handled by the
callers, matching `encoding/json`'s special-casing of pointers). -/
def decodeSchemaNode : Jsonish → Option TypeSchema
  | .jobj entries => decodeSchemaEntries entries zeroSchema
  | _ => none

/-- Process the keys of a schema object in order, updating the accumulated
`TypeSchema`; later duplicate keys overwrite earlier ones, unknown keys are
ignored, `null` values leave the accumulator unchanged (and set the `items`
pointer to nil). -/
def decodeSchemaEntries : List (String × Jsonish) → TypeSchema → Option TypeSchema
  | [], acc => some acc
  | (k, v) :: rest, acc =>
    if k == "type" then
      match v with
      | .jnull => decodeSchemaEntries rest acc
      | .jstr s => decodeSchemaEntries rest
          (.mk s acc.properties acc.items acc.required acc.description)
      | _ => none
    else if k == "description" then
      match v with
      | .jnull => decodeSchemaEntries rest acc
      | .jstr s => decodeSchemaEntries rest
          (.mk acc.ttype acc.properties acc.items acc.required s)
      | _ => none
    else if k == "required" then
      match v with
      | .jnull => decodeSchemaEntries rest acc
      | .jarr elems =>
        match decodeStringList elems with
        | none => none
        | some l => decodeSchemaEntries rest
            (.mk acc.ttype acc.properties acc.items l acc.description)
      | _ => none
    else if k == "items" then
      match v with
      | .jnull => decodeSchemaEntries rest
          (.mk acc.ttype acc.properties none acc.required acc.description)
      | _ =>
        match decodeSchemaNode v with
        | none => none
        | some s => decodeSchemaEntries rest
            (.mk acc.ttype acc.properties (some s) acc.required acc.description)
    else if k == "properties" then
      match v with
      | .jnull => decodeSchemaEntries rest acc
      | _ =>
        match decodeSchemaProps v with
        | none => none
        | some ps => decodeSchemaEntries rest
            (.mk acc.ttype ps acc.items acc.required acc.description)
    else decodeSchemaEntries rest acc

/-- Decode the `properties` value, which must be an object. -/
def decodeSchemaProps : Jsonish → Option (List (String × TypeSchema))
  | .jobj kvs => decodeSchemaPropsList kvs
  | _ => none

/-- Decode the entries of the `properties` map; a `null` property value is
kept as an entry holding the zero node (Go keeps the key with a nil
`*TypeSchema`). -/
def decodeSchemaPropsList : List (String × Jsonish) → Option (List (String × TypeSchema))
  | [] => some []
  | (k, v) :: rest =>
    match v with
    | .jnull =>
      match decodeSchemaPropsList rest with
      | none => none
      | some ps => some ((k, zeroSchema) :: ps)
    | _ =>
      match decodeSchemaNode v with
      | none => none
      | some s =>
        match decodeSchemaPropsList rest with
        | none => none
        | some ps => some ((k, s) :: ps)

end

/-- `BuildSchemaFromJson` (part_000:46-53) on an already-lexed document. -/
def BuildSchemaFromJson (doc : Jsonish) : Option TypeSchema :=
  match doc with
  | .jnull => some zeroSchema
  | .jobj entries => decodeSchemaEntries entries zeroSchema
  | _ => none

mutual

/-- The §3 invariant claimed for every exposed `SchemaNode`: the Required
list is a subset of the Properties keys, at every nesting level. -/
def subsetInv : TypeSchema → Bool
  | .mk _ props itemsOpt req _ =>
    req.all (fun n => props.any (fun p => p.1 == n)) &&
    subsetInvProps props &&
    (match itemsOpt with
     | none => true
     | some s => subsetInv s)

def subsetInvProps : List (String × TypeSchema) → Bool
  | [] => true
  | (_, s) :: rest => subsetInv s && subsetInvProps rest

end

/-!  Shorthand parser and legacy signature (`signature.go`). -/

/-- `Field` (signature.go:23-30): the untyped legacy field.  Go's `Prefix`
is `pfx`; the zero `FieldType` is the empty string (distinct from `"text"`). -/
inductive Field where
  | mk (name description pfx : String) (ftype : FieldType)
       (items : Option Field) (properties : List (String × Field)) : Field

namespace Field

def name : Field → String
  | .mk n _ _ _ _ _ => n

def description : Field → String
  | .mk _ d _ _ _ _ => d

def pfx : Field → String
  | .mk _ _ p _ _ _ => p

def ftype : Field → FieldType
  | .mk _ _ _ t _ _ => t

def items : Field → Option Field
  | .mk _ _ _ _ i _ => i

def properties : Field → List (String × Field)
  | .mk _ _ _ _ _ ps => ps

end Field

attribute [simp] Field.name Field.description Field.pfx Field.ftype
  Field.items Field.properties

/-- `Signature` (signature.go:137-141).  The `InputField` / `OutputField`
wrappers add no data of their own and are elided. -/
structure Signature where
  Inputs : List Field
  Outputs : List Field
  Instruction : String := ""

/-- `NewSignature` (signature.go:144-149). -/
def NewSignature (inputs outputs : List Field) : Signature :=
  { Inputs := inputs, Outputs := outputs }

/-- `strings.Split(s, "->")` at the character-list level: split around each
leftmost non-overlapping occurrence of the arrow. -/
def splitArrowList : List Char → List (List Char)
  | [] => [[]]
  | [c] => [[c]]
  | c1 :: c2 :: rest =>
    if c1 = '-' ∧ c2 = '>' then [] :: splitArrowList rest
    else match splitArrowList (c2 :: rest) with
      | [] => [[c1]]
      | p :: ps => (c1 :: p) :: ps

/-- Number of occurrences of the arrow `->` in a string (occurrences of the
two-character pattern cannot overlap themselves). -/
def arrowOccs : List Char → Nat
  | a :: b :: rest => (if a = '-' ∧ b = '>' then 1 else 0) + arrowOccs (b :: rest)
  | _ => 0

/-- `parseInputFields` (signature.go:195-203): split the side on commas,
trim each name, and populate nothing but `Name`. -/
def parseInputFields (fieldsStr : String) : List Field :=
  (splitCommaList fieldsStr.data).map
    (fun cs => Field.mk (goTrim (String.mk cs)) "" "" "" none [])

/-- `parseOutputFields` (signature.go:205-213): identical to
`parseInputFields` modulo the elided `OutputField` wrapper. -/
def parseOutputFields (fieldsStr : String) : List Field :=
  (splitCommaList fieldsStr.data).map
    (fun cs => Field.mk (goTrim (String.mk cs)) "" "" "" none [])

/-- `ParseSignature` (signature.go:183-193): split on the arrow, error
unless exactly two parts, trim each side and split it on commas. -/
def ParseSignature (signatureStr : String) : Option Signature :=
  match splitArrowList signatureStr.data with
  | [l, r] =>
    some (NewSignature (parseInputFields (goTrim (String.mk l)))
      (parseOutputFields (goTrim (String.mk r))))
  | _ => none

/-- `AppendInput` (signature.go:221-231): value receiver, new field appended
to `Inputs`; `Type` is left at its zero value. -/
def Signature.AppendInput (s : Signature) (name pfxArg description : String) :
    Signature :=
  { s with Inputs := s.Inputs ++ [Field.mk name description pfxArg "" none []] }

/-- `PrependOutput` (signature.go:234-244): value receiver, new field
prepended to `Outputs`. -/
def Signature.PrependOutput (s : Signature) (name pfxArg description : String) :
    Signature :=
  { s with Outputs := Field.mk name description pfxArg "" none [] :: s.Outputs }

/-!  Registry (`NewTypedSignatureCached`, typed_signature.go:349-374).

The `sync.Map` calls `Load` and `LoadOrStore` are atomic; between them the
caller builds its own candidate instance.  A caller is therefore a three
state program: `start` (before `Load`), `building` (after a `Load` miss,
building its own instance), `finished w` (returned the instance built by
caller `w`).  The shared state holds the single published entry for the one
cache key under consideration: `none`, or `some w` for the instance built by
caller `w`.  Since `createTypedSignatureImpl` is a pure function of the key,
every caller's candidate has the same content, so instances are identified
by their builder. -/
inductive CallerPC where
  | start : CallerPC
  | building : CallerPC
  | finished (who : Nat) : CallerPC
  deriving DecidableEq

structure RegState where
  published : Option Nat
  pcs : List CallerPC
  deriving DecidableEq

/-- One atomic step of one caller `i`:
`loadHit` — `Load` returns the published instance, caller returns it;
`loadMiss` — `Load` misses, caller starts building;
`storeWin` — `LoadOrStore` finds the key absent, publishes caller `i`'s own
instance and returns it;
`storeLose` — `LoadOrStore` finds `w`'s instance already published, caller
discards its own build and returns `w`'s. -/
inductive RegStep : RegState → RegState → Prop where
  | loadHit {pcs : List CallerPC} (i w : Nat)
      (hi : pcs.get? i = some .start) :
      RegStep ⟨some w, pcs⟩ ⟨some w, pcs.set i (.finished w)⟩
  | loadMiss {pcs : List CallerPC} (i : Nat)
      (hi : pcs.get? i = some .start) :
      RegStep ⟨none, pcs⟩ ⟨none, pcs.set i .building⟩
  | storeWin {pcs : List CallerPC} (i : Nat)
      (hi : pcs.get? i = some .building) :
      RegStep ⟨none, pcs⟩ ⟨some i, pcs.set i (.finished i)⟩
  | storeLose {pcs : List CallerPC} (i w : Nat)
      (hi : pcs.get? i = some .building) :
      RegStep ⟨some w, pcs⟩ ⟨some w, pcs.set i (.finished w)⟩

/-- `n` callers, none yet started, nothing published. -/
def regInit (n : Nat) : RegState := ⟨none, List.replicate n .start⟩

/-- Reachability under interleaved caller steps. -/
def RegReach (s t : RegState) : Prop := Relation.ReflTransGen RegStep s t

/-- The `fieldType` path a validation error's message names. -/
def errPath : ValidationError → String
  | .emptyValue p => p
  | .notAStruct p => p
  | .requiredFieldMissing p _ => p

/-!  Spec-side correspondence between the Introspector's semantic types and
the Synthesizer's schema tags, for claim C2. -/

/-- The schema `type` tag corresponding to an introspector classification
(Text falls back to STRING: both are the classifiers' defaults).  Image and
Audio have no schema counterpart. -/
def introspectorToSchemaTag (ft : FieldType) : String :=
  if ft = fieldTypeString then typeSTRING
  else if ft = fieldTypeInt then typeINTEGER
  else if ft = fieldTypeBool then typeBOOLEAN
  else if ft = fieldTypeArray then typeARRAY
  else if ft = fieldTypeObject then typeOBJECT
  else typeSTRING

/-- The declared kinds on which the two classifiers genuinely follow the
same rule.  Excluded (they diverge): byte slices (Image vs ARRAY), floats
(Text vs NUMBER), maps (Object vs STRING), fixed arrays (Text vs ARRAY),
and pointers (the introspector unwraps exactly one level, the synthesizer
none at its own top — `baseType` strips all levels only at field
positions). -/
def kindAgrees : GoType → Bool
  | .goString => true
  | .goBool => true
  | .goInt => true
  | .goInt8 => true
  | .goInt16 => true
  | .goInt32 => true
  | .goInt64 => true
  | .goUint8 => true
  | .goSlice e => !e.isUint8
  | .goStruct _ _ => true
  | .goOther => true
  | _ => false

attribute [simp] TypeSchema.ttype TypeSchema.properties TypeSchema.items
  TypeSchema.required TypeSchema.description

/-- Keys of a Go map after one assignment: unchanged when the key was
already present, appended otherwise (the key-list counterpart of
`insertSchemaProp`). -/
def addKey (ks : List String) (k : String) : List String :=
  if ks.contains k then ks else ks ++ [k]

/-!  ################  Theorems  ################ -/

/-!  C9 — `AppendInput` / `PrependOutput` frame conditions. -/

/-- C9: `AppendInput(name, prefix, description)` yields a signature whose
`Inputs` is the original list with the new field appended at the end, with
`Outputs` and `Instruction` unchanged; `PrependOutput` inserts the new field
at the front of `Outputs`, with `Inputs` and `Instruction` unchanged.  Both
are value-receiver functions in Go, so the caller's signature value is
observably unmodified — in this pure embedding that is inherent: the result
is a new record whose components are fully characterized here in terms of
the unchanged original. -/
theorem C9_append_prepend_frame (s : Signature) (nm pfxArg desc : String) :
    (s.AppendInput nm pfxArg desc).Inputs
        = s.Inputs ++ [Field.mk nm desc pfxArg "" none []]
    ∧ (s.AppendInput nm pfxArg desc).Outputs = s.Outputs
    ∧ (s.AppendInput nm pfxArg desc).Instruction = s.Instruction
    ∧ (s.PrependOutput nm pfxArg desc).Outputs
        = Field.mk nm desc pfxArg "" none [] :: s.Outputs
    ∧ (s.PrependOutput nm pfxArg desc).Inputs = s.Inputs
    ∧ (s.PrependOutput nm pfxArg desc).Instruction = s.Instruction := by
  simp [Signature.AppendInput, Signature.PrependOutput]

/-!  C4 — `ParseSignature` fails exactly when the arrow count differs
from one. -/

lemma splitArrowList_ne_nil (l : List Char) : splitArrowList l ≠ [] := by
  induction l using splitArrowList.induct with
  | case1 => simp [splitArrowList]
  | case2 c => simp [splitArrowList]
  | case3 c1 c2 rest h ih => simp [splitArrowList, h]
  | case4 c1 c2 rest h hnil ih => exact absurd hnil ih
  | case5 c1 c2 rest h p ps hs ih =>
    rw [splitArrowList.eq_def]
    simp only [if_neg h]
    rw [hs]
    simp

lemma arrowOccs_gt_cons (rest : List Char) :
    arrowOccs ('>' :: rest) = arrowOccs rest := by
  cases rest with
  | nil => simp [arrowOccs]
  | cons b r => simp [arrowOccs]

lemma splitArrowList_length (l : List Char) :
    (splitArrowList l).length = arrowOccs l + 1 := by
  induction l using splitArrowList.induct with
  | case1 => simp [splitArrowList, arrowOccs]
  | case2 c => simp [splitArrowList, arrowOccs]
  | case3 c1 c2 rest h ih =>
    obtain ⟨h1, h2⟩ := h
    subst h1; subst h2
    simp [splitArrowList, arrowOccs, arrowOccs_gt_cons, ih]
    omega
  | case4 c1 c2 rest h hnil ih => exact absurd hnil (splitArrowList_ne_nil (c2 :: rest))
  | case5 c1 c2 rest h p ps hs ih =>
    rw [splitArrowList.eq_def]
    simp only [if_neg h]
    rw [hs]
    have hocc : arrowOccs (c1 :: c2 :: rest) = arrowOccs (c2 :: rest) := by
      simp [arrowOccs, h]
    rw [hs] at ih
    simp at ih
    simp [hocc, ih]

/-- C4: the shorthand parser fails (`MalformedSignature`, modelled as `none`)
if and only if the arrow separator `->` does not occur exactly once in the
input; when it occurs exactly once the parse succeeds, with no other failure
condition. -/
theorem C4_parse_fails_iff_arrow_count (s : String) :
    ParseSignature s = none ↔ arrowOccs s.data ≠ 1 := by
  have hlen := splitArrowList_length s.data
  cases hsp : splitArrowList s.data with
  | nil => exact absurd hsp (splitArrowList_ne_nil s.data)
  | cons l rest =>
    cases rest with
    | nil =>
      rw [hsp] at hlen
      simp at hlen
      simp [ParseSignature, hsp]
      omega
    | cons r rest2 =>
      cases rest2 with
      | nil =>
        rw [hsp] at hlen
        simp at hlen
        simp [ParseSignature, hsp]
        omega
      | cons x xs =>
        rw [hsp] at hlen
        simp [ParseSignature, hsp]
        simp at hlen
        omega

/-!  C5 — fields produced by the shorthand parser. -/

/-- C5 counterexample: `parseShorthand("a, b -> c")` does produce inputs
`a`,`b` and output `c`, but every field's `Type` is the zero `FieldType`
(the empty string), not the named default `Text` — `Field{Name: fieldStr}`
leaves `Type` unset, and `FieldType("")` is distinct from
`FieldTypeText = "text"` (the renderer would even print `[ ]` for it).  This
refutes the claim's "its Type is the default Text". -/
theorem C5_counterexample_type_not_text :
    (ParseSignature "a, b -> c").map (fun g => g.Inputs.map Field.name)
        = some ["a", "b"]
    ∧ (ParseSignature "a, b -> c").map (fun g => g.Outputs.map Field.name)
        = some ["c"]
    ∧ (ParseSignature "a, b -> c").map (fun g => g.Inputs.map Field.ftype)
        = some ["", ""]
    ∧ (ParseSignature "a, b -> c").map (fun g => g.Outputs.map Field.ftype)
        = some [""]
    ∧ ("" : FieldType) ≠ fieldTypeText := by
  exact ⟨by decide, by decide, by decide, by decide, by decide⟩

/-- C5 (amended): on every successful parse, each side of the arrow is split
on commas with whitespace trimmed from each name, and each resulting field
has only `Name` populated: `Description` and `Prefix` are empty, `Items` and
`Properties` are unset, and `Type` is the zero `FieldType` (the empty
string) — not the named constant `Text`.  (`Field` has no `Required` flag at
all, so "Required unset" is vacuous.) -/
theorem C5_parse_fields_name_only (s : String) (sig : Signature)
    (h : ParseSignature s = some sig) :
    sig.Instruction = ""
    ∧ (∃ l r, splitArrowList s.data = [l, r]
        ∧ sig.Inputs = (splitCommaList (goTrimList l)).map
            (fun cs => Field.mk (goTrim (String.mk cs)) "" "" "" none [])
        ∧ sig.Outputs = (splitCommaList (goTrimList r)).map
            (fun cs => Field.mk (goTrim (String.mk cs)) "" "" "" none []))
    ∧ ∀ f ∈ sig.Inputs ++ sig.Outputs,
        f.description = "" ∧ f.pfx = "" ∧ f.ftype = ""
        ∧ f.items = none ∧ f.properties = [] := by
  unfold ParseSignature at h
  cases hsp : splitArrowList s.data with
  | nil => rw [hsp] at h; cases h
  | cons l rest =>
    cases rest with
    | nil => rw [hsp] at h; cases h
    | cons r rest2 =>
      cases rest2 with
      | cons x xs => rw [hsp] at h; cases h
      | nil =>
        rw [hsp] at h
        injection h with h
        subst h
        refine ⟨rfl, ⟨l, r, rfl, ?_, ?_⟩, ?_⟩
        · simp [NewSignature, parseInputFields, goTrim]
        · simp [NewSignature, parseOutputFields, goTrim]
        · intro f hf
          simp [NewSignature, parseInputFields, parseOutputFields] at hf
          rcases hf with ⟨cs, _, rfl⟩ | ⟨cs, _, rfl⟩ <;> simp

/-!  C2 — kind classification: Introspector vs Synthesizer. -/

/-- C2 counterexample: a byte-sequence field is NOT classified under the
same rule by both components.  The introspector applies the binary heuristic
(`[]uint8 → Image`, distinct from `[]int → Array`), while the synthesizer
has no byte-slice case at all and tags both `[]uint8` and `[]int` as plain
`ARRAY`. -/
theorem C2_counterexample_byte_slice :
    inferFieldType (.goSlice .goUint8) = fieldTypeImage
    ∧ inferFieldType (.goSlice .goInt) = fieldTypeArray
    ∧ (buildSchemaFromType (.goSlice .goUint8)).ttype = typeARRAY
    ∧ (buildSchemaFromType (.goSlice .goInt)).ttype = typeARRAY
    ∧ fieldTypeImage ≠ fieldTypeArray := by
  refine ⟨by decide, by decide, ?_, ?_, by decide⟩
  · simp [buildSchemaFromType]
  · simp [buildSchemaFromType]

/-- C2 (amended): the synthesizer's type tag corresponds to the
introspector's semantic type only on the kinds where the rules coincide —
strings, bools, integers, uint8, non-byte slices, structs and the fallback
kinds.  The classifiers diverge on byte slices (Image vs plain ARRAY),
floats (Text vs NUMBER), maps (Object vs STRING), fixed arrays (Text vs
ARRAY) and pointers (one unwrapped level vs none at the top /
all levels at field positions). -/
theorem C2_kind_agreement (t : GoType) (h : kindAgrees t = true) :
    (buildSchemaFromType t).ttype = introspectorToSchemaTag (inferFieldType t) := by
  cases t <;>
    simp_all [kindAgrees, inferFieldType, buildSchemaFromType,
      introspectorToSchemaTag, GoType.ptrDeref, GoType.isUint8,
      fieldTypeText, fieldTypeString, fieldTypeInt, fieldTypeBool,
      fieldTypeArray, fieldTypeObject, fieldTypeImage,
      typeSTRING, typeINTEGER, typeBOOLEAN, typeARRAY, typeOBJECT]

/-- Witness for C2 (amended) at a concrete kind. -/
theorem C2_kind_agreement_witness :
    (buildSchemaFromType .goString).ttype
      = introspectorToSchemaTag (inferFieldType .goString) :=
  C2_kind_agreement .goString rfl

/-!  C3 — `toSchema` on records: required-by-default, array-of-record
shape. -/

lemma insertSchemaProp_keys (props : List (String × TypeSchema)) (nm : String)
    (s : TypeSchema) :
    (insertSchemaProp props nm s).map Prod.fst = addKey (props.map Prod.fst) nm := by
  unfold insertSchemaProp addKey
  have hbr : ((props.map Prod.fst).contains nm) = props.any (fun p => p.1 == nm) := by
    induction props with
    | nil => rfl
    | cons a rest ih =>
      simp only [List.map_cons, List.contains_cons, List.any_cons, ih]
      congr 1
      rw [Bool.eq_iff_iff]
      simp [beq_iff_eq]
      exact eq_comm
  rw [hbr]
  split
  · rw [List.map_map]
    apply List.map_congr_left
    intro p _
    by_cases hp : p.1 = nm <;> simp [hp]
  · simp

lemma buildSchemaFields_keys (fs : List GoField) :
    ∀ (props : List (String × TypeSchema)) (req : List String),
    ((buildSchemaFields fs props req).1).map Prod.fst
      = (fs.filter (fun f => f.exported)).foldl
          (fun acc f => addKey acc (jsonFieldName f)) (props.map Prod.fst) := by
  induction fs with
  | nil => intro props req; simp [buildSchemaFields]
  | cons f rest ih =>
    intro props req
    by_cases hx : f.exported = true
    · simp only [buildSchemaFields, hx, if_true, List.filter_cons_of_pos hx,
        List.foldl_cons]
      rw [ih, insertSchemaProp_keys]
    · simp only [buildSchemaFields, hx, if_false, Bool.false_eq_true,
        List.filter_cons_of_neg hx]
      exact ih props req

lemma buildSchemaFields_required (fs : List GoField) :
    ∀ (props : List (String × TypeSchema)) (req : List String),
    (buildSchemaFields fs props req).2
      = req ++ ((fs.filter (fun f => f.exported)).filter
          (fun f => !jsonOmitempty f)).map jsonFieldName := by
  induction fs with
  | nil => intro props req; simp [buildSchemaFields]
  | cons f rest ih =>
    intro props req
    by_cases hx : f.exported = true
    · by_cases ho : jsonOmitempty f = true
      · simp only [buildSchemaFields, hx, if_true, ho,
          List.filter_cons_of_pos hx]
        rw [ih]
        simp [List.filter_cons, ho]
      · simp only [buildSchemaFields, hx, if_true, ho, if_false,
          List.filter_cons_of_pos hx]
        rw [ih]
        simp [List.filter_cons, ho, List.append_assoc]
    · simp only [buildSchemaFields, hx, if_false, Bool.false_eq_true,
        List.filter_cons_of_neg hx]
      exact ih props req

/-- C3 counterexample: "one Properties entry per visible field" fails when
two visible fields resolve to the same `json` name — the later entry
overwrites the earlier in the Properties map while Required records the name
twice.  Record: `{A string json:"x"; B int json:"x"}` has two visible
fields but the OBJECT node has a single Properties entry. -/
theorem C3_counterexample_duplicate_names :
    ((buildSchemaFromType (.goSlice (.goStruct "r"
        [.mk "A" true "" "" "" "x" .goString,
         .mk "B" true "" "" "" "x" .goInt]))).items.map
      (fun o => (o.ttype, o.properties.length, o.required)))
      = some (typeOBJECT, 1, ["x", "x"])
    ∧ (([.mk "A" true "" "" "" "x" .goString,
         .mk "B" true "" "" "" "x" .goInt] : List GoField).filter
          (fun f => f.exported)).length = 2
    ∧ (1 : Nat) ≠ 2 := by
  refine ⟨?_, by decide, by decide⟩
  simp [buildSchemaFromType, buildSchemaFields, baseType, jsonFieldName,
    jsonOmitempty, insertSchemaProp, typeOBJECT]

/-- C3 (amended): `toSchema` on an array-of-record type yields an ARRAY node
whose items is an OBJECT node; each visible field is Required unless its
`json` directive carries `omitempty` (Required lists the resolved names in
declaration order, with a duplicate entry per repeated name), and Properties
has one entry per DISTINCT resolved field name in first-occurrence order
(later duplicate names overwrite the earlier entry's schema). -/
theorem C3_array_of_record (nm : String) (fs : List GoField) :
    (buildSchemaFromType (.goSlice (.goStruct nm fs))).ttype = typeARRAY
    ∧ ∃ obj, (buildSchemaFromType (.goSlice (.goStruct nm fs))).items = some obj
        ∧ obj.ttype = typeOBJECT
        ∧ obj.properties.map Prod.fst
            = (fs.filter (fun f => f.exported)).foldl
                (fun acc f => addKey acc (jsonFieldName f)) []
        ∧ obj.required
            = ((fs.filter (fun f => f.exported)).filter
                (fun f => !jsonOmitempty f)).map jsonFieldName := by
  constructor
  · simp [buildSchemaFromType]
  · refine ⟨buildSchemaFromType (.goStruct nm fs), ?_, ?_, ?_, ?_⟩
    · simp [buildSchemaFromType, baseType]
    · simp [buildSchemaFromType]
    · have h := buildSchemaFields_keys fs [] []
      simp at h
      simp [buildSchemaFromType, h]
    · have h := buildSchemaFields_required fs [] []
      simp at h
      simp [buildSchemaFromType, h]

/-!  C6 — the Required-subset-of-Properties invariant. -/

/-- C6 counterexample: `BuildSchemaFromJson` performs no structural
validation beyond decoding, so a pre-authored document whose `required` list
names a field absent from `properties` deserializes successfully into a
SchemaNode violating the invariant. -/
theorem C6_counterexample_deserialized_schema :
    BuildSchemaFromJson (.jobj [("type", .jstr "OBJECT"),
        ("required", .jarr [.jstr "x"])])
      = some (.mk "OBJECT" [] none ["x"] "")
    ∧ subsetInv (.mk "OBJECT" [] none ["x"] "") = false := by
  exact ⟨rfl, rfl⟩

lemma subsetInvProps_eq_all (l : List (String × TypeSchema)) :
    subsetInvProps l = l.all (fun p => subsetInv p.2) := by
  induction l with
  | nil => rfl
  | cons a rest ih => cases a; simp [subsetInvProps, ih]

lemma any_insertSchemaProp_of_any {props : List (String × TypeSchema)}
    {n nm : String} {s : TypeSchema}
    (h : props.any (fun p => p.1 == n) = true) :
    (insertSchemaProp props nm s).any (fun p => p.1 == n) = true := by
  unfold insertSchemaProp
  split
  · rw [List.any_map]
    have he : ((fun p : String × TypeSchema => p.1 == n)
        ∘ (fun p => if p.1 == nm then (p.1, s) else p))
        = (fun p : String × TypeSchema => p.1 == n) := by
      funext p
      by_cases hp : p.1 = nm <;> simp [Function.comp, hp]
    rw [he]
    exact h
  · rw [List.any_append]
    simp [h]

lemma any_insertSchemaProp_self (props : List (String × TypeSchema))
    (nm : String) (s : TypeSchema) :
    (insertSchemaProp props nm s).any (fun p => p.1 == nm) = true := by
  unfold insertSchemaProp
  split
  · rename_i hc
    rw [List.any_map]
    have he : ((fun p : String × TypeSchema => p.1 == nm)
        ∘ (fun p => if p.1 == nm then (p.1, s) else p))
        = (fun p : String × TypeSchema => p.1 == nm) := by
      funext p
      by_cases hp : p.1 = nm <;> simp [Function.comp, hp]
    rw [he]
    exact hc
  · rw [List.any_append]
    simp

lemma subsetInvProps_insert {props : List (String × TypeSchema)} {nm : String}
    {s : TypeSchema} (hp : subsetInvProps props = true)
    (hs : subsetInv s = true) :
    subsetInvProps (insertSchemaProp props nm s) = true := by
  rw [subsetInvProps_eq_all] at *
  unfold insertSchemaProp
  split
  · rw [List.all_map]
    rw [List.all_eq_true] at *
    intro p hmem
    by_cases hpn : p.1 = nm <;> simp [Function.comp, hpn]
    · exact hs
    · exact hp p hmem
  · rw [List.all_append]
    simp [hp, hs]

/-- Every nested field schema built for the fields of a record preserves the
Required-subset-of-Properties-keys relation on the accumulated maps. -/
lemma buildSchemaFields_inv (fs : List GoField) :
    ∀ (props : List (String × TypeSchema)) (req : List String),
    (∀ f ∈ fs, subsetInv (buildSchemaFromType (baseType f.ty)) = true) →
    req.all (fun n => props.any (fun p => p.1 == n)) = true →
    subsetInvProps props = true →
    ((buildSchemaFields fs props req).2.all
        (fun n => (buildSchemaFields fs props req).1.any (fun p => p.1 == n))
          = true
      ∧ subsetInvProps (buildSchemaFields fs props req).1 = true) := by
  induction fs with
  | nil =>
    intro props req _ hall hprops
    simp only [buildSchemaFields]
    exact ⟨hall, hprops⟩
  | cons f rest ih =>
    intro props req hf hall hprops
    by_cases hexp : f.exported = true
    · have hstep : buildSchemaFields (f :: rest) props req
          = buildSchemaFields rest
              (insertSchemaProp props (jsonFieldName f)
                (buildSchemaFromType (baseType f.ty)))
              (if jsonOmitempty f then req else req ++ [jsonFieldName f]) := by
        simp only [buildSchemaFields, hexp, if_true]
      rw [hstep]
      apply ih
      · intro g hg
        exact hf g (List.mem_cons_of_mem f hg)
      · rw [List.all_eq_true]
        intro n hn
        by_cases ho : jsonOmitempty f = true
        · rw [if_pos ho] at hn
          exact any_insertSchemaProp_of_any ((List.all_eq_true.mp hall) n hn)
        · rw [if_neg ho] at hn
          rcases List.mem_append.mp hn with hn | hn
          · exact any_insertSchemaProp_of_any ((List.all_eq_true.mp hall) n hn)
          · rcases List.mem_singleton.mp hn with rfl
            exact any_insertSchemaProp_self props (jsonFieldName f) _
      · exact subsetInvProps_insert hprops (hf f (List.mem_cons_self f rest))
    · have hstep : buildSchemaFields (f :: rest) props req
          = buildSchemaFields rest props req := by
        simp only [buildSchemaFields, hexp]
        simp
      rw [hstep]
      exact ih props req (fun g hg => hf g (List.mem_cons_of_mem f hg)) hall hprops

/-- C6 (amended): every SchemaNode derived from a type declaration by the
Synthesizer satisfies the invariant that its Required list is a subset of
its Properties keys at every nesting level; a pre-authored document
deserialized by `BuildSchemaFromJson` is NOT checked and may violate it. -/
theorem C6_synthesized_subset_invariant (t : GoType) :
    subsetInv (buildSchemaFromType t) = true := by
  suffices H : ∀ (n : Nat) (u : GoType), sizeOf u ≤ n →
      subsetInv (buildSchemaFromType u) = true from H (sizeOf t) t le_rfl
  intro n
  induction n with
  | zero =>
    intro u hu
    exfalso
    cases u <;> simp_all
  | succ n ih =>
    intro u hu
    cases u with
    | goStruct nm fs =>
      have hf : ∀ f ∈ fs, subsetInv (buildSchemaFromType (baseType f.ty)) = true := by
        intro f hmem
        apply ih
        have h1 := List.sizeOf_lt_of_mem hmem
        have h2 : sizeOf (GoField.ty f) < sizeOf f := by
          cases f with
          | mk a b c d e g ty' =>
            simp only [GoField.ty, GoField.mk.sizeOf_spec]
            omega
        have h3 := sizeOf_baseType_le (GoField.ty f)
        simp only [GoType.goStruct.sizeOf_spec] at hu
        omega
      obtain ⟨h1, h2⟩ := buildSchemaFields_inv fs [] [] hf (by simp)
        (by simp [subsetInvProps])
      simp [buildSchemaFromType, subsetInv, h1, h2]
    | goSlice e =>
      have hinner : subsetInv (buildSchemaFromType (baseType e)) = true := by
        apply ih
        have := sizeOf_baseType_le e
        simp only [GoType.goSlice.sizeOf_spec] at hu
        omega
      simp [buildSchemaFromType, subsetInv, subsetInvProps, hinner]
    | goFixedArray e =>
      have hinner : subsetInv (buildSchemaFromType (baseType e)) = true := by
        apply ih
        have := sizeOf_baseType_le e
        simp only [GoType.goFixedArray.sizeOf_spec] at hu
        omega
      simp [buildSchemaFromType, subsetInv, subsetInvProps, hinner]
    | goString => simp [buildSchemaFromType, subsetInv, subsetInvProps]
    | goBool => simp [buildSchemaFromType, subsetInv, subsetInvProps]
    | goInt => simp [buildSchemaFromType, subsetInv, subsetInvProps]
    | goInt8 => simp [buildSchemaFromType, subsetInv, subsetInvProps]
    | goInt16 => simp [buildSchemaFromType, subsetInv, subsetInvProps]
    | goInt32 => simp [buildSchemaFromType, subsetInv, subsetInvProps]
    | goInt64 => simp [buildSchemaFromType, subsetInv, subsetInvProps]
    | goUint8 => simp [buildSchemaFromType, subsetInv, subsetInvProps]
    | goFloat32 => simp [buildSchemaFromType, subsetInv, subsetInvProps]
    | goFloat64 => simp [buildSchemaFromType, subsetInv, subsetInvProps]
    | goPtr e => simp [buildSchemaFromType, subsetInv, subsetInvProps]
    | goMap v => simp [buildSchemaFromType, subsetInv, subsetInvProps]
    | goOther => simp [buildSchemaFromType, subsetInv, subsetInvProps]

/-!  C7 — the registry publishes at most one instance per key. -/

lemma get?_set_cases {α : Type} {l : List α} {i j : Nat} {x y : α}
    (h : (l.set i x).get? j = some y) :
    (i = j ∧ y = x) ∨ (i ≠ j ∧ l.get? j = some y) := by
  by_cases hij : i = j
  · subst hij
    left
    refine ⟨rfl, ?_⟩
    rw [List.get?_set_eq] at h
    cases hl : l.get? i with
    | none => rw [hl] at h; simp at h
    | some z => rw [hl] at h; simp at h; exact h.symm
  · right
    rw [List.get?_set_ne x l hij] at h
    exact ⟨hij, h⟩

lemma regStep_preserves_inv {s t : RegState} (hst : RegStep s t)
    (hinv : ∀ i w, s.pcs.get? i = some (.finished w) → s.published = some w) :
    ∀ i w, t.pcs.get? i = some (.finished w) → t.published = some w := by
  cases hst with
  | loadHit i w hi =>
    intro j w' hj
    rcases get?_set_cases hj with ⟨rfl, hy⟩ | ⟨hne, hold⟩
    · injection hy with hy
      subst hy
      rfl
    · exact hinv j w' hold
  | loadMiss i hi =>
    intro j w' hj
    rcases get?_set_cases hj with ⟨rfl, hy⟩ | ⟨hne, hold⟩
    · cases hy
    · exact hinv j w' hold
  | storeWin i hi =>
    intro j w' hj
    rcases get?_set_cases hj with ⟨rfl, hy⟩ | ⟨hne, hold⟩
    · injection hy with hy
      subst hy
      rfl
    · exact absurd (hinv j w' hold) (by simp)
  | storeLose i w hi =>
    intro j w' hj
    rcases get?_set_cases hj with ⟨rfl, hy⟩ | ⟨hne, hold⟩
    · injection hy with hy
      subst hy
      rfl
    · exact hinv j w' hold

lemma regReach_inv {n : Nat} {s : RegState} (h : RegReach (regInit n) s) :
    ∀ i w, s.pcs.get? i = some (.finished w) → s.published = some w := by
  induction h with
  | refl =>
    intro i w hi
    exfalso
    rcases List.get?_eq_some.mp hi with ⟨hlt, hget⟩
    simp [regInit] at hlt hget
  | tail hsteps hstep ih => exact regStep_preserves_inv hstep ih

/-- C7: from the initial state of `n` concurrent first-time callers, in
every reachable state all finished callers have returned the SAME builder's
instance — the single published one — and a published entry is never
replaced by any further step.  "Losing" builders discard their own candidate
and return the winner's; since `createTypedSignatureImpl` is a pure function
of the type pair, all candidates are content-equal and the returned
instances are moreover identical. -/
theorem C7_registry_single_publication {n : Nat} {s : RegState}
    (hreach : RegReach (regInit n) s) :
    (∀ i j wi wj, s.pcs.get? i = some (.finished wi) →
        s.pcs.get? j = some (.finished wj) →
        wi = wj ∧ s.published = some wi)
    ∧ (∀ w s', s.published = some w → RegStep s s' → s'.published = some w) := by
  have hinv := regReach_inv hreach
  constructor
  · intro i j wi wj hi hj
    have h1 := hinv i wi hi
    have h2 := hinv j wj hj
    rw [h1] at h2
    injection h2 with h2
    exact ⟨h2, h1⟩
  · intro w s' hw hst
    cases hst <;> simp_all

/-- Witness for C7 at a concrete two-caller race: both callers miss, caller
0 wins the `LoadOrStore`, caller 1 loses and adopts caller 0's instance. -/
theorem C7_registry_single_publication_witness :
    (0 : Nat) = 0
    ∧ (RegState.mk (some 0) [CallerPC.finished 0, CallerPC.finished 0]).published
        = some 0 := by
  have h0 : RegStep (regInit 2) ⟨none, [CallerPC.building, CallerPC.start]⟩ :=
    @RegStep.loadMiss (List.replicate 2 .start) 0 rfl
  have h1 : RegStep ⟨none, [CallerPC.building, CallerPC.start]⟩
      ⟨none, [CallerPC.building, CallerPC.building]⟩ :=
    @RegStep.loadMiss [CallerPC.building, CallerPC.start] 1 rfl
  have h2 : RegStep ⟨none, [CallerPC.building, CallerPC.building]⟩
      ⟨some 0, [CallerPC.finished 0, CallerPC.building]⟩ :=
    @RegStep.storeWin [CallerPC.building, CallerPC.building] 0 rfl
  have h3 : RegStep ⟨some 0, [CallerPC.finished 0, CallerPC.building]⟩
      ⟨some 0, [CallerPC.finished 0, CallerPC.finished 0]⟩ :=
    @RegStep.storeLose [CallerPC.finished 0, CallerPC.building] 1 0 rfl
  have hreach : RegReach (regInit 2)
      ⟨some 0, [CallerPC.finished 0, CallerPC.finished 0]⟩ :=
    Relation.ReflTransGen.tail
      (Relation.ReflTransGen.tail
        (Relation.ReflTransGen.tail (Relation.ReflTransGen.single h0) h1) h2) h3
  exact (C7_registry_single_publication hreach).1 0 1 0 0 rfl rfl

/-!  C8 — error taxonomy of the validator's top checks. -/

/-- Unfolding `validateStruct` on a present value, with the dependent match
on `derefValue` replaced by a plain one. -/
lemma validateStruct_some_eq (v0 : GoValue) (expected : List FieldMetadata)
    (p : String) :
    validateStruct (some v0) expected p =
      match derefValue v0 with
      | none => some (.notAStruct p)
      | some (.vStruct fields) => validateFieldsLoop fields expected p
      | some _ => some (.notAStruct p) := by
  simp only [validateStruct]
  split
  · rename_i heq
    rw [heq]
  · rename_i fields heq
    rw [heq]
  · rename_i val hno hsc
    rw [hsc]
    cases val with
    | vStruct fields => exact absurd rfl (hno fields)
    | vString s => rfl
    | vBool b => rfl
    | vInt n => rfl
    | vPtr q => rfl
    | vSlice b l => rfl
    | vMap b l => rfl

lemma validateStruct_none_eq (expected : List FieldMetadata) (p : String) :
    validateStruct none expected p = some (.emptyValue p) := by
  simp only [validateStruct]

lemma validateFieldsLoop_nil (fields : List (String × GoValue)) (p : String) :
    validateFieldsLoop fields [] p = none := by
  simp only [validateFieldsLoop]

/-- Unfolding one step of the expected-field loop, with the dependent match
on `lookupGoField` replaced by a plain one. -/
lemma validateFieldsLoop_cons (fields : List (String × GoValue))
    (ef : FieldMetadata) (rest : List FieldMetadata) (p : String) :
    validateFieldsLoop fields (ef :: rest) p =
      if !ef.required then validateFieldsLoop fields rest p
      else
        match lookupGoField fields ef.goFieldName with
        | none => some (.requiredFieldMissing p ef.name)
        | some fv =>
          if goIsZero fv then some (.requiredFieldMissing p ef.name)
          else if ef.ftype = fieldTypeObject then
            match validateStruct (some fv) (flatten ef.properties)
                (p ++ "." ++ ef.name) with
            | some e => some e
            | none => validateFieldsLoop fields rest p
          else validateFieldsLoop fields rest p := by
  by_cases hreq : (!ef.required) = true
  · simp only [validateFieldsLoop, hreq, if_true]
  · simp only [validateFieldsLoop, if_neg hreq]
    split <;> rename_i heq <;> rw [heq]

/-- Shape of every error `validateStruct` can return: the nil error at the
call's own path with a nil value, the not-a-struct error at the call's own
path with a non-record value, a required-field error at the call's own path,
or an error whose path is strictly longer (produced by the one-level
recursion into a required Object field). -/
lemma validateStruct_error_shape :
    ∀ (value : Option GoValue) (expected : List FieldMetadata) (p : String)
      (e : ValidationError), validateStruct value expected p = some e →
      (value = none ∧ e = .emptyValue p)
      ∨ (e = .notAStruct p
          ∧ ∃ v, value = some v ∧ ∀ fields, derefValue v ≠ some (.vStruct fields))
      ∨ (∃ nm, e = .requiredFieldMissing p nm)
      ∨ p.length < (errPath e).length := by
  have hmain := validateStruct.induct
    (fun value expected p => ∀ e, validateStruct value expected p = some e →
      (value = none ∧ e = .emptyValue p)
      ∨ (e = .notAStruct p
          ∧ ∃ v, value = some v ∧ ∀ fields, derefValue v ≠ some (.vStruct fields))
      ∨ (∃ nm, e = .requiredFieldMissing p nm)
      ∨ p.length < (errPath e).length)
    (fun fields expected p => ∀ e, validateFieldsLoop fields expected p = some e →
      (∃ nm, e = .requiredFieldMissing p nm) ∨ p.length < (errPath e).length)
    ?_ ?_ ?_ ?_ ?_ ?_ ?_ ?_ ?_ ?_ ?_
  · intro value expected p
    exact hmain value expected p
  · intro expected p e he
    rw [validateStruct_none_eq] at he
    injection he with he
    exact Or.inl ⟨rfl, he.symm⟩
  · intro expected p v0 h1 e he
    rw [validateStruct_some_eq, h1] at he
    injection he with he
    refine Or.inr (Or.inl ⟨he.symm, v0, rfl, ?_⟩)
    rw [h1]
    intro fields hc
    cases hc
  · intro expected p v0 fields h1 ih e he
    rw [validateStruct_some_eq, h1] at he
    rcases ih e he with ⟨nm, rfl⟩ | hlong
    · exact Or.inr (Or.inr (Or.inl ⟨nm, rfl⟩))
    · exact Or.inr (Or.inr (Or.inr hlong))
  · intro expected p v0 val hval h1 e he
    rw [validateStruct_some_eq, h1] at he
    have hred :
        (match (some val : Option GoValue) with
          | none => some (ValidationError.notAStruct p)
          | some (.vStruct fields) => validateFieldsLoop fields expected p
          | some _ => some (ValidationError.notAStruct p))
          = some (ValidationError.notAStruct p) := by
      cases val with
      | vStruct fields => exact absurd rfl (hval fields)
      | vString s => rfl
      | vBool b => rfl
      | vInt n => rfl
      | vPtr q => rfl
      | vSlice b l => rfl
      | vMap b l => rfl
    rw [hred] at he
    injection he with he
    refine Or.inr (Or.inl ⟨he.symm, v0, rfl, ?_⟩)
    rw [h1]
    intro fields hc
    injection hc with hc
    exact hval fields hc
  · intro fields p e he
    rw [validateFieldsLoop_nil] at he
    cases he
  · intro fields p ef rest hreq ih e he
    rw [validateFieldsLoop_cons, if_pos hreq] at he
    exact ih e he
  · intro fields p ef rest hreq h2 e he
    rw [validateFieldsLoop_cons, if_neg hreq, h2] at he
    injection he with he
    exact Or.inl ⟨ef.name, he.symm⟩
  · intro fields p ef rest hreq fv h2 hz e he
    rw [validateFieldsLoop_cons, if_neg hreq, h2] at he
    simp only [if_pos hz] at he
    injection he with he
    exact Or.inl ⟨ef.name, he.symm⟩
  · intro fields p ef rest hreq fv h2 hz hobj e0 heq ih1 e he
    rw [validateFieldsLoop_cons, if_neg hreq, h2] at he
    simp only [if_neg hz, if_pos hobj, heq] at he
    injection he with he
    subst he
    have hlen : p.length < (p ++ "." ++ ef.name).length := by
      rw [String.length_append, String.length_append]
      have hdot : (("." : String)).length = 1 := rfl
      omega
    rcases ih1 e0 heq with ⟨hnone, _⟩ | ⟨hna, _⟩ | ⟨nm, hrfm⟩ | hlong
    · cases hnone
    · subst hna
      exact Or.inr (by simp only [errPath]; exact hlen)
    · subst hrfm
      exact Or.inr (by simp only [errPath]; exact hlen)
    · exact Or.inr (lt_trans hlen hlong)
  · intro fields p ef rest hreq fv h2 hz hobj heq ih1 ih2 e he
    rw [validateFieldsLoop_cons, if_neg hreq, h2] at he
    simp only [if_neg hz, if_pos hobj, heq] at he
    exact ih2 e he
  · intro fields p ef rest hreq fv h2 hz hobj ih e he
    rw [validateFieldsLoop_cons, if_neg hreq, h2] at he
    simp only [if_neg hz, if_neg hobj] at he
    exact ih e he

/-- C8: `validateStruct` fails with `EmptyValue` at its own path exactly
when the value is the nil interface, fails with `NotAStruct` at its own
path exactly when the value, after one pointer dereference, is not a
structured record; both failures are ordinary return values, and in both
cases the expected-field list is never consulted (the result is independent
of it). -/
theorem C8_empty_and_not_struct (value : Option GoValue)
    (expected : List FieldMetadata) (p : String) :
    (validateStruct value expected p = some (.emptyValue p) ↔ value = none)
    ∧ (validateStruct value expected p = some (.notAStruct p)
        ↔ ∃ v, value = some v ∧ ∀ fields, derefValue v ≠ some (.vStruct fields))
    ∧ ((value = none
        ∨ ∃ v, value = some v ∧ ∀ fields, derefValue v ≠ some (.vStruct fields)) →
        ∀ expected', validateStruct value expected p
          = validateStruct value expected' p) := by
  have hnotstruct : ∀ v, (∀ fields, derefValue v ≠ some (.vStruct fields)) →
      ∀ (md : List FieldMetadata),
        validateStruct (some v) md p = some (.notAStruct p) := by
    intro v hv md
    rw [validateStruct_some_eq]
    cases hd : derefValue v with
    | none => rfl
    | some val =>
      cases val with
      | vStruct fields => exact absurd hd (hv fields)
      | vString s => rfl
      | vBool b => rfl
      | vInt n => rfl
      | vPtr q => rfl
      | vSlice b l => rfl
      | vMap b l => rfl
  refine ⟨⟨?_, ?_⟩, ⟨?_, ?_⟩, ?_⟩
  · intro he
    rcases validateStruct_error_shape value expected p _ he with
      ⟨hn, _⟩ | ⟨hne, _⟩ | ⟨nm, hne⟩ | hlong
    · exact hn
    · cases hne
    · cases hne
    · simp [errPath] at hlong
  · rintro rfl
    exact validateStruct_none_eq expected p
  · intro he
    rcases validateStruct_error_shape value expected p _ he with
      ⟨_, hne⟩ | ⟨_, hv⟩ | ⟨nm, hne⟩ | hlong
    · cases hne
    · exact hv
    · cases hne
    · simp [errPath] at hlong
  · rintro ⟨v, rfl, hv⟩
    exact hnotstruct v hv expected
  · rintro (rfl | ⟨v, rfl, hv⟩) expected'
    · rw [validateStruct_none_eq, validateStruct_none_eq]
    · rw [hnotstruct v hv expected, hnotstruct v hv expected']

/-- Witness for C8 at a non-record value: a plain integer fails
`NotAStruct`. -/
theorem C8_empty_and_not_struct_witness :
    validateStruct (some (.vInt 3)) [] "input" = some (.notAStruct "input") := by
  refine ((C8_empty_and_not_struct (some (.vInt 3)) [] "input").2.1).mpr ?_
  refine ⟨.vInt 3, rfl, ?_⟩
  intro fields hc
  simp [derefValue] at hc

/-!  C1 — the validator against the spec's required-field sentence. -/

lemma specValidate_none_eq (zero : GoValue → Bool)
    (expected : List FieldMetadata) (p : String) :
    specValidate zero none expected p = some (.emptyValue p) := by
  simp only [specValidate]

/-- Unfolding `specValidate` on a present value. -/
lemma specValidate_some_eq (zero : GoValue → Bool) (v0 : GoValue)
    (expected : List FieldMetadata) (p : String) :
    specValidate zero (some v0) expected p =
      match derefValue v0 with
      | none => some (.notAStruct p)
      | some (.vStruct fields) => specCheckFields zero fields expected p
      | some _ => some (.notAStruct p) := by
  simp only [specValidate]
  split
  · rename_i heq
    rw [heq]
  · rename_i fields heq
    rw [heq]
  · rename_i val hno hsc
    rw [hsc]
    cases val with
    | vStruct fields => exact absurd rfl (hno fields)
    | vString s => rfl
    | vBool b => rfl
    | vInt n => rfl
    | vPtr q => rfl
    | vSlice b l => rfl
    | vMap b l => rfl

lemma specCheckFields_nil (zero : GoValue → Bool)
    (fields : List (String × GoValue)) (p : String) :
    specCheckFields zero fields [] p = none := by
  simp only [specCheckFields]

/-- Unfolding one step of the spec-side required-field scan. -/
lemma specCheckFields_cons (zero : GoValue → Bool)
    (fields : List (String × GoValue)) (ef : FieldMetadata)
    (rest : List FieldMetadata) (p : String) :
    specCheckFields zero fields (ef :: rest) p =
      if ef.required then
        match lookupGoField fields ef.goFieldName with
        | none => some (.requiredFieldMissing p ef.name)
        | some fv =>
          if zero fv then some (.requiredFieldMissing p ef.name)
          else if ef.ftype = fieldTypeObject then
            match specValidate zero (some fv) (flatten ef.properties)
                (p ++ "." ++ ef.name) with
            | some e => some e
            | none => specCheckFields zero fields rest p
          else specCheckFields zero fields rest p
      else specCheckFields zero fields rest p := by
  by_cases hreq : ef.required = true
  · simp only [specCheckFields, hreq, if_true]
    split <;> rename_i heq <;> rw [heq]
  · simp only [specCheckFields, hreq, if_false]
    have hr : ef.required = false := by
      cases hef : ef.required
      · rfl
      · exact absurd hef hreq
    simp [hr]

/-- C1 counterexample: a required Array-typed field holding an EMPTY but
NON-NIL slice.  The claim's zero-equivalence list counts an "empty
collection" as missing, so the spec-side validator (the claim verbatim,
`specValidate claimZeroEquivalent`) reports `RequiredFieldMissing input.xs`
— but `reflect.Value.IsZero` on a slice tests nil-ness, not emptiness, so
the code accepts the value (`ok`).  The metadata is exactly
`describe(struct { Xs []int `+"`"+`dspy:",required"`+"`"+` })`. -/
theorem C1_counterexample_empty_collection :
    parseStructFields
        (.goStruct "t" [.mk "Xs" true ",required" "" "" "" (.goSlice .goInt)]) true
      = [FieldMetadata.mk "xs" "Xs" true "Xs" "" fieldTypeArray
          (.goSlice .goInt)
          (some (FieldMetadata.mk "int" "int" false "int" "" fieldTypeInt
            .goInt none [])) []]
    ∧ validateStruct (some (.vStruct [("Xs", .vSlice false [])]))
        (parseStructFields
          (.goStruct "t" [.mk "Xs" true ",required" "" "" "" (.goSlice .goInt)])
          true) "input"
      = none
    ∧ specValidate claimZeroEquivalent
        (some (.vStruct [("Xs", .vSlice false [])]))
        (parseStructFields
          (.goStruct "t" [.mk "Xs" true ",required" "" "" "" (.goSlice .goInt)])
          true) "input"
      = some (.requiredFieldMissing "input" "xs")
    ∧ (none : Option ValidationError)
        ≠ some (.requiredFieldMissing "input" "xs") := by
  have hfield : parseFieldMetadataRecursive
      (.mk "Xs" true ",required" "" "" "" (.goSlice .goInt)) true
      = FieldMetadata.mk "xs" "Xs" true "Xs" "" fieldTypeArray
          (.goSlice .goInt)
          (some (FieldMetadata.mk "int" "int" false "int" "" fieldTypeInt
            .goInt none [])) [] := by
    simp [parseFieldMetadataRecursive, parseArrayElement, List.dropWhile,
      inferFieldType, fieldTypeArray, fieldTypeObject, fieldTypeString,
      fieldTypeInt]
  have hmd : parseStructFields
      (.goStruct "t" [.mk "Xs" true ",required" "" "" "" (.goSlice .goInt)]) true
      = [FieldMetadata.mk "xs" "Xs" true "Xs" "" fieldTypeArray
          (.goSlice .goInt)
          (some (FieldMetadata.mk "int" "int" false "int" "" fieldTypeInt
            .goInt none [])) []] := by
    simp [parseStructFields, hfield]
  refine ⟨hmd, ?_, ?_, by simp⟩
  · rw [hmd, validateStruct_some_eq]
    simp only [derefValue]
    rw [validateFieldsLoop_cons]
    simp [lookupGoField, List.find?, goIsZero, fieldTypeArray, fieldTypeObject,
      validateFieldsLoop_nil]
  · rw [hmd, specValidate_some_eq]
    simp only [derefValue]
    rw [specCheckFields_cons]
    simp [lookupGoField, List.find?, claimZeroEquivalent, fieldTypeArray,
      fieldTypeObject]

/-- C1 (amended): for every metadata list, value and path, the validator
behaves exactly as the spec sentence with zero-equivalence read as Go's
`IsZero`: a required field is "missing" when it is absent or holds its
type's zero value (empty string, zero number, false, nil pointer, nil
collection — an empty but non-nil collection counts as present — or a
recursively all-zero record); the scan is in declaration order, fail-fast,
never checks non-required fields, validates a required Object-typed field
recursively one level into its flattened Properties with the extended path
(so a non-record value there fails `NotAStruct`), and never recurses into
Array-typed fields. -/
theorem C1_validate_matches_go_zero_spec (value : Option GoValue)
    (expected : List FieldMetadata) (path : String) :
    validateStruct value expected path
      = specValidate goIsZero value expected path := by
  have hmain := validateStruct.induct
    (fun value expected path =>
      validateStruct value expected path
        = specValidate goIsZero value expected path)
    (fun fields expected path =>
      validateFieldsLoop fields expected path
        = specCheckFields goIsZero fields expected path)
    ?_ ?_ ?_ ?_ ?_ ?_ ?_ ?_ ?_ ?_ ?_
  · exact hmain value expected path
  · intro expected p
    rw [validateStruct_none_eq, specValidate_none_eq]
  · intro expected p v0 h1
    rw [validateStruct_some_eq, specValidate_some_eq, h1]
  · intro expected p v0 fields h1 ih
    rw [validateStruct_some_eq, specValidate_some_eq, h1]
    exact ih
  · intro expected p v0 val hval h1
    rw [validateStruct_some_eq, specValidate_some_eq, h1]
    cases val with
    | vStruct fields => exact absurd rfl (hval fields)
    | vString s => rfl
    | vBool b => rfl
    | vInt n => rfl
    | vPtr q => rfl
    | vSlice b l => rfl
    | vMap b l => rfl
  · intro fields p
    rw [validateFieldsLoop_nil, specCheckFields_nil]
  · intro fields p ef rest hreq ih
    have hr : ef.required = false := by
      cases hef : ef.required
      · rfl
      · rw [hef] at hreq; cases hreq
    rw [validateFieldsLoop_cons, specCheckFields_cons, if_pos hreq, hr]
    simp only [if_false, Bool.false_eq_true]
    exact ih
  · intro fields p ef rest hreq h2
    have hr : ef.required = true := by
      cases hef : ef.required
      · rw [hef] at hreq; simp at hreq
      · rfl
    rw [validateFieldsLoop_cons, specCheckFields_cons, if_neg hreq, hr,
      if_pos rfl, h2]
  · intro fields p ef rest hreq fv h2 hz
    have hr : ef.required = true := by
      cases hef : ef.required
      · rw [hef] at hreq; simp at hreq
      · rfl
    rw [validateFieldsLoop_cons, specCheckFields_cons, if_neg hreq, hr,
      if_pos rfl, h2]
    simp only [if_pos hz]
  · intro fields p ef rest hreq fv h2 hz hobj e0 heq ih1
    have hr : ef.required = true := by
      cases hef : ef.required
      · rw [hef] at hreq; simp at hreq
      · rfl
    rw [validateFieldsLoop_cons, specCheckFields_cons, if_neg hreq, hr,
      if_pos rfl, h2]
    simp only [if_neg hz, if_pos hobj, heq]
    rw [← ih1, heq]
  · intro fields p ef rest hreq fv h2 hz hobj heq ih1 ih2
    have hr : ef.required = true := by
      cases hef : ef.required
      · rw [hef] at hreq; simp at hreq
      · rfl
    rw [validateFieldsLoop_cons, specCheckFields_cons, if_neg hreq, hr,
      if_pos rfl, h2]
    simp only [if_neg hz, if_pos hobj, heq]
    rw [← ih1, heq]
    exact ih2
  · intro fields p ef rest hreq fv h2 hz hobj ih
    have hr : ef.required = true := by
      cases hef : ef.required
      · rw [hef] at hreq; simp at hreq
      · rfl
    rw [validateFieldsLoop_cons, specCheckFields_cons, if_neg hreq, hr,
      if_pos rfl, h2]
    simp only [if_neg hz, if_neg hobj]
    exact ih

/-!  C10 — nested descriptors always use the input-side defaults. -/

lemma mem_insertProp {props : List (String × FieldMetadata)} {nm : String}
    {child c : FieldMetadata} (h : (nm, child) ∈ insertProp props c) :
    (nm, child) ∈ props ∨ child = c := by
  unfold insertProp at h
  split at h
  · rcases List.mem_map.mp h with ⟨p, hp, heq⟩
    by_cases hc : (p.1 == c.name) = true
    · rw [if_pos hc] at heq
      injection heq with h1 h2
      exact Or.inr h2.symm
    · rw [if_neg hc] at heq
      exact Or.inl (heq ▸ hp)
  · rcases List.mem_append.mp h with hmem | hmem
    · exact Or.inl hmem
    · rcases List.mem_singleton.mp hmem with heq
      injection heq with h1 h2
      exact Or.inr h2

lemma mem_buildProps_values {children : List (Option FieldMetadata)}
    {nm : String} {child : FieldMetadata} :
    ∀ {acc : List (String × FieldMetadata)},
    (nm, child) ∈ children.foldl (fun acc c => match c with
      | none => acc
      | some ch => insertProp acc ch) acc →
    (nm, child) ∈ acc ∨ some child ∈ children := by
  induction children with
  | nil =>
    intro acc h
    exact Or.inl h
  | cons c rest ih =>
    intro acc h
    simp only [List.foldl_cons] at h
    cases c with
    | none =>
      rcases ih h with hacc | hrest
      · exact Or.inl hacc
      · exact Or.inr (List.mem_cons_of_mem _ hrest)
    | some ch =>
      rcases ih h with hacc | hrest
      · rcases mem_insertProp hacc with hmem | rfl
        · exact Or.inl hmem
        · exact Or.inr (List.mem_cons_self _ _)
      · exact Or.inr (List.mem_cons_of_mem _ hrest)

lemma mem_parseObjectPropertiesLoop {fs : List GoField} {child : FieldMetadata}
    (h : some child ∈ parseObjectPropertiesLoop fs) :
    ∃ f, f ∈ fs ∧ f.exported = true ∧ child = parseFieldMetadataRecursive f true := by
  induction fs with
  | nil =>
    rw [show parseObjectPropertiesLoop [] = [] from by
      simp [parseObjectPropertiesLoop]] at h
    cases h
  | cons f rest ih =>
    rw [show parseObjectPropertiesLoop (f :: rest)
        = (if f.exported then some (parseFieldMetadataRecursive f true) else none)
          :: parseObjectPropertiesLoop rest from by
      simp [parseObjectPropertiesLoop]] at h
    rcases List.mem_cons.mp h with hhead | htail
    · by_cases hexp : f.exported = true
      · rw [if_pos hexp] at hhead
        injection hhead.symm with hc
        exact ⟨f, List.mem_cons_self f rest, hexp, hc.symm⟩
      · rw [if_neg hexp] at hhead
        cases hhead
    · rcases ih htail with ⟨g, hg, hge, hgc⟩
      exact ⟨g, List.mem_cons_of_mem f hg, hge, hgc⟩

/-- The `Prefix` of an input-parsed field with no `prefix` directive is
empty. -/
lemma pfmr_pfx_input (f : GoField) (h : f.tagPfx = "") :
    (parseFieldMetadataRecursive f true).pfx = "" := by
  simp only [parseFieldMetadataRecursive, FieldMetadata.pfx, h]
  simp

/-- The `Required` flag of a parsed field comes solely from its own `dspy`
directive. -/
lemma pfmr_required_eq (f : GoField) (b : Bool) :
    (parseFieldMetadataRecursive f b).required
      = (if f.tagDspy ≠ "" then dspyRequired (goSplitComma f.tagDspy).tail
         else false) := by
  simp only [parseFieldMetadataRecursive, FieldMetadata.required]

/-- C10: every nested descriptor — the entries of an Object field's
Properties and the Item of an Array field — is built with the input-side
defaults, regardless of whether the enclosing field is an input or an
output: (i) the nested parts of `parseFieldMetadataRecursive` do not depend
on the `isInput` flag; (ii) an Array element descriptor has an empty prefix
and `Required = false` (its synthetic field has an empty tag); (iii) an
input-parsed field with no `prefix` directive gets the empty prefix, and its
Required flag comes solely from its own `dspy` directive; (iv) every
Properties entry is `parseFieldMetadataRecursive f true` of one of the
(pointer-dereferenced) record's exported fields. -/
theorem C10_nested_descriptors_input_defaults :
    (∀ (f : GoField) (b : Bool),
        (parseFieldMetadataRecursive f b).item
          = (parseFieldMetadataRecursive f true).item
      ∧ (parseFieldMetadataRecursive f b).properties
          = (parseFieldMetadataRecursive f true).properties)
    ∧ (∀ (t : GoType) (h : inferFieldType t = fieldTypeArray),
        (parseArrayElement t h).pfx = ""
      ∧ (parseArrayElement t h).required = false)
    ∧ (∀ (f : GoField), f.tagPfx = "" →
        (parseFieldMetadataRecursive f true).pfx = "")
    ∧ (∀ (f : GoField),
        (parseFieldMetadataRecursive f true).required
          = (if f.tagDspy ≠ "" then dspyRequired (goSplitComma f.tagDspy).tail
             else false))
    ∧ (∀ (t : GoType) (nm : String) (child : FieldMetadata),
        (nm, child) ∈ parseObjectProperties t →
        ∃ f, f ∈ t.ptrDeref.structFields ∧ f.exported = true
          ∧ child = parseFieldMetadataRecursive f true) := by
  refine ⟨?_, ?_, ?_, ?_, ?_⟩
  · intro f b
    constructor
    · simp only [parseFieldMetadataRecursive, FieldMetadata.item]
    · simp only [parseFieldMetadataRecursive, FieldMetadata.properties]
  · intro t h
    have hae : parseArrayElement t h
        = parseFieldMetadataRecursive
            (GoField.mk (GoType.typeName (GoType.elemType t)) true "" "" "" ""
              (GoType.elemType t)) true := by
      simp only [parseArrayElement]
    rw [hae]
    refine ⟨pfmr_pfx_input _ rfl, ?_⟩
    rw [pfmr_required_eq]
    simp
  · intro f hpfx
    exact pfmr_pfx_input f hpfx
  · intro f
    exact pfmr_required_eq f true
  · intro t nm child hmem
    rw [show parseObjectProperties t
        = buildProps (parseObjectPropertiesLoop t.ptrDeref.structFields) from by
      simp [parseObjectProperties]] at hmem
    unfold buildProps at hmem
    rcases mem_buildProps_values hmem with hacc | hsome
    · cases hacc
    · exact mem_parseObjectPropertiesLoop hsome

/-- Witness for C10 at a concrete record: the single exported string field
of `struct { A string }`, parsed as a nested object property, is the
input-parsed descriptor of that field with empty prefix and
`Required = false`. -/
theorem C10_nested_descriptors_input_defaults_witness :
    ((parseArrayElement (.goSlice .goInt) (by decide)).pfx = ""
      ∧ (parseArrayElement (.goSlice .goInt) (by decide)).required = false)
    ∧ (parseFieldMetadataRecursive (.mk "A" true "" "" "" "" .goString) true).pfx
        = ""
    ∧ (∃ f, f ∈ (GoType.ptrDeref
          (.goStruct "w" [.mk "A" true "" "" "" "" .goString])).structFields
        ∧ f.exported = true
        ∧ FieldMetadata.mk "a" "A" false "A" "" fieldTypeString .goString none []
            = parseFieldMetadataRecursive f true) := by
  have hth := C10_nested_descriptors_input_defaults
  refine ⟨hth.2.1 (.goSlice .goInt) (by decide), hth.2.2.1 _ rfl, ?_⟩
  have hfield : parseFieldMetadataRecursive (.mk "A" true "" "" "" "" .goString) true
      = FieldMetadata.mk "a" "A" false "A" "" fieldTypeString .goString none [] := by
    simp [parseFieldMetadataRecursive, inferFieldType, fieldTypeString,
      fieldTypeArray, fieldTypeObject]
  have hmem : ("a", FieldMetadata.mk "a" "A" false "A" "" fieldTypeString
        .goString none [])
      ∈ parseObjectProperties (.goStruct "w" [.mk "A" true "" "" "" "" .goString]) := by
    rw [show parseObjectProperties (.goStruct "w" [.mk "A" true "" "" "" "" .goString])
        = [("a", FieldMetadata.mk "a" "A" false "A" "" fieldTypeString
            .goString none [])] from by
      simp [parseObjectProperties, parseObjectPropertiesLoop, hfield,
        buildProps, insertProp]]
    exact List.mem_singleton.mpr rfl
  exact hth.2.2.2.2 _ "a" _ hmem

/-- Witness for C5 (amended) at the spec's own example `"a, b -> c"`,
instantiated at the first parsed input field. -/
theorem C5_parse_fields_name_only_witness :
    (Field.mk "a" "" "" "" none []).description = ""
    ∧ (Field.mk "a" "" "" "" none []).pfx = ""
    ∧ (Field.mk "a" "" "" "" none []).ftype = ""
    ∧ (Field.mk "a" "" "" "" none []).items = none
    ∧ (Field.mk "a" "" "" "" none []).properties = [] :=
  (C5_parse_fields_name_only "a, b -> c"
      { Inputs := [Field.mk "a" "" "" "" none [], Field.mk "b" "" "" "" none []],
        Outputs := [Field.mk "c" "" "" "" none []],
        Instruction := "" } rfl).2.2
    (Field.mk "a" "" "" "" none [])
    (List.mem_append.mpr (Or.inl (List.mem_cons_self _ _)))

end DspyGo
